import Mathlib

/-!
Verification of the EnvAgent repository (conda environment generator).

Shallow embedding: a Python `str` is modelled as a `List Char` (a sequence
of Unicode code points, which is exactly what a Python string is); Python
string operations used by the program (`strip`, `split`, `startswith`,
`in`, slicing, `join`, `sorted`, `replace`, `lower`) are given executable
counterparts below.  Each component of the program is then translated
definition-by-definition from its source file:

 * `src/agents/env_fixer.py`        — `normalizeYml`, `areYamlsIdentical`,
   `cleanMarkdown`, `heuristicFallback`, `envFixerFix`;
 * `src/agents/project_analyzer.py` — `selectRelevantFiles`,
   `formatFilesContent`, `analyzePayload`, `evidenceTally`;
 * `src/agents/code_scanner.py`     — `findBestProjectRoot`;
 * `src/utils/system_checker.py` / `src/main.py` — `runAllChecksTuple`,
   `mainPreflight`, `repairLoop`.

External effects (the OpenAI advisory call, `conda` subprocesses, the
filesystem, `ast.parse`) are oracle parameters of the corresponding
functions; the pure logic around them follows the Python source.
-/

/-- A Python string: a sequence of Unicode code points. -/
abbrev PyStr := List Char

/-- The characters stripped by Python's `str.strip()` with no argument:
exactly the code points `c` with `c.isspace()` true (ASCII whitespace,
the C1 whitespace controls, and the Unicode space separators). -/
def pyWsChar (c : Char) : Bool :=
  let n := c.toNat
  (9 ≤ n && n ≤ 13) || (28 ≤ n && n ≤ 31) || n == 32 || n == 0x85 ||
    n == 0xa0 || n == 0x1680 || (0x2000 ≤ n && n ≤ 0x200a) || n == 0x2028 ||
    n == 0x2029 || n == 0x202f || n == 0x205f || n == 0x3000

/-- Python `s.strip()`. -/
def pyStripChars (s : PyStr) : PyStr :=
  ((s.dropWhile pyWsChar).reverse.dropWhile pyWsChar).reverse

/-- Python `s.split("\n")`. -/
def pySplitNl : PyStr → List PyStr
  | [] => [[]]
  | c :: r =>
    match pySplitNl r with
    | [] => [[c]]
    | l :: ls => if c = '\n' then [] :: l :: ls else (c :: l) :: ls

/-- Python `"\n".join(ls)`. -/
def pyJoinNl (ls : List PyStr) : PyStr := List.intercalate ['\n'] ls

/-- Python substring test `pat in s`. -/
def pySubstr (pat s : PyStr) : Bool := decide (pat <:+: s)

/-- Python `s.split(sep)[0]` for a non-empty separator: the part of `s`
before the first occurrence of `sep` (all of `s` when `sep` is absent). -/
def pySplitFirst (sep : PyStr) : PyStr → PyStr
  | [] => []
  | c :: r => if sep.isPrefixOf (c :: r) then [] else c :: pySplitFirst sep r

/-- Python `s.split()[0]` (first whitespace-separated token). -/
def pyFirstTok (s : PyStr) : PyStr :=
  (s.dropWhile pyWsChar).takeWhile (fun c => !pyWsChar c)

/-- ASCII case map; sufficient for the `.lower()` comparisons the program
performs (they compare against the ASCII literals `readme.md`/`readme.rst`). -/
def pyLowerChar (c : Char) : Char :=
  if 'A' ≤ c && c ≤ 'Z' then Char.ofNat (c.toNat + 32) else c

/-- Python `s.lower()` restricted to ASCII letters. -/
def pyLower (s : PyStr) : PyStr := s.map pyLowerChar

/-- Python `sorted` on a list of strings (lexicographic order on code
points, which is the order `≤` of `List Char`). -/
def sortStrs (ls : List PyStr) : List PyStr :=
  ls.insertionSort (· ≤ ·)

/- ----------------------------------------------------------------------
`src/agents/env_fixer.py`
---------------------------------------------------------------------- -/

/-- The line filter of `_are_yamls_identical.normalize`: keep
`line.strip()` when it is non-empty and does not start with `#`. -/
def keptLine (l : PyStr) : Option PyStr :=
  let s := pyStripChars l
  if s = [] then none
  else if ['#'].isPrefixOf s then none
  else some s

/-- The comprehension inside `normalize`, over an already split line list. -/
def keptLines (ls : List PyStr) : List PyStr := ls.filterMap keptLine

/-- `"\n".join(sorted(lines))` over an already split line list. -/
def normalizeLines (ls : List PyStr) : PyStr := pyJoinNl (sortStrs (keptLines ls))

/-- `EnvironmentFixer._are_yamls_identical.normalize`:
strip the text, split on newlines, drop blank and `#`-comment lines,
strip each kept line, sort, and re-join with newlines. -/
def normalizeYml (yml : PyStr) : PyStr :=
  normalizeLines (pySplitNl (pyStripChars yml))

/-- `EnvironmentFixer._are_yamls_identical`. -/
def areYamlsIdentical (y1 y2 : PyStr) : Bool :=
  decide (normalizeYml y1 = normalizeYml y2)

/-- `EnvironmentFixer._clean_markdown`: when a code fence appears, drop
every line whose stripped form starts with a fence and strip the result. -/
def cleanMarkdown (text : PyStr) : PyStr :=
  if pySubstr ("```".toList) text then
    pyStripChars (pyJoinNl ((pySplitNl text).filter
      (fun l => !(("```".toList).isPrefixOf (pyStripChars l)))))
  else text

/-- `_heuristic_fallback`'s solver-error classifier:
`any(x in error for x in [...])`. -/
def isSolverError (error : PyStr) : Bool :=
  pySubstr ("LibMambaUnsatisfiableError".toList) error ||
    pySubstr ("UnsatisfiableError".toList) error ||
    pySubstr ("conflicts".toList) error

/-- The version-pin separators tried, in order, by `_heuristic_fallback`. -/
def pinSeps : List PyStr :=
  ["==".toList, ">=".toList, "<=".toList, "!=".toList, "~=".toList, "=".toList]

/-- The `for sep in [...]: if sep in pkg_name: pkg_name = pkg_name.split(sep)[0].strip(); break`
loop of `_heuristic_fallback`. -/
def stripFirstSep : List PyStr → PyStr → PyStr
  | [], p => p
  | sep :: rest, p =>
    if pySubstr sep p then pyStripChars (pySplitFirst sep p)
    else stripFirstSep rest p

/-- One iteration of the `_heuristic_fallback` line loop: takes the
solver-error flag, the current `in_pip_section` flag and the line, and
returns the emitted line together with the next `in_pip_section` flag. -/
def fallbackLine (solver inPip : Bool) (line : PyStr) : PyStr × Bool :=
  let stripped := pyStripChars line
  if ("- pip:".toList).isPrefixOf stripped then (line, true)
  else
    let inPip2 :=
      if inPip && !stripped.isEmpty && !([' '].isPrefixOf line) &&
          !(['\t'].isPrefixOf line) then false
      else inPip
    if stripped.isEmpty || ['#'].isPrefixOf stripped then (line, inPip2)
    else if ("- python".toList).isPrefixOf stripped then
      if solver && (stripped.contains '=' || stripped.contains '>' ||
          stripped.contains '<') then
        (line.takeWhile (fun c => c ≠ '-') ++ ("- python".toList), inPip2)
      else (line, inPip2)
    else if solver && !inPip2 && ['-'].isPrefixOf stripped &&
        !(stripped.contains ':') && !(("- -e".toList).isPrefixOf stripped) then
      let pkgLine := pyStripChars (stripped.drop 1)
      let pkgName0 := stripFirstSep pinSeps pkgLine
      let pkgName :=
        if pkgName0.contains ' ' && !(['-'].isPrefixOf pkgName0) then
          pyStripChars (pyFirstTok pkgName0)
        else pkgName0
      if pkgName.isEmpty then (line, inPip2)
      else (line.takeWhile (fun c => c ≠ '-') ++ ("- ".toList) ++ pkgName, inPip2)
    else (line, inPip2)

/-- The `_heuristic_fallback` line loop over a whole line list. -/
def fallbackLines (solver : Bool) : Bool → List PyStr → List PyStr
  | _, [] => []
  | inPip, l :: rest =>
    let r := fallbackLine solver inPip l
    r.1 :: fallbackLines solver r.2 rest

/-- `EnvironmentFixer._heuristic_fallback`. -/
def heuristicFallback (yml error : PyStr) : PyStr :=
  pyJoinNl (fallbackLines (isSolverError error) false (pySplitNl yml))

/-- `EnvironmentFixer.fix`.  The advisory interaction (prompt build, API
call, response content) is the oracle argument: `Except.error` is the
call raising, `Except.ok content` is the returned message content, which
`fix` strips and passes through `_clean_markdown` before the
`_are_yamls_identical` comparison. -/
def envFixerFix (advisory : Except Unit PyStr) (currentYml errorMessage : PyStr) :
    PyStr :=
  match advisory with
  | Except.error _ => heuristicFallback currentYml errorMessage
  | Except.ok content =>
    let fixed := cleanMarkdown (pyStripChars content)
    if areYamlsIdentical currentYml fixed then
      heuristicFallback currentYml errorMessage
    else fixed

/- ----------------------------------------------------------------------
`src/agents/project_analyzer.py`
---------------------------------------------------------------------- -/

/-- `ProjectAnalyzer.EXCLUDE_DIR_PREFIXES`. -/
def EXCLUDE_DIR_PREFIXES : List PyStr :=
  ["tests/".toList, "test/".toList, "docs/".toList, "doc/".toList,
   "benchmarks/".toList, "benchmark/".toList, ".github/".toList,
   ".git/".toList, "examples/".toList, "example/".toList,
   "scripts/".toList, "script/".toList, "release/".toList, "dist/".toList,
   "build/".toList, "__pycache__/".toList]

/-- `ProjectAnalyzer.PRIMARY_FILES`. -/
def PRIMARY_FILES : List PyStr :=
  ["pyproject.toml".toList, "requirements.txt".toList,
   "requirements-dev.txt".toList, "requirements-dev.in".toList,
   "requirements.in".toList, "setup.py".toList, "setup.cfg".toList,
   "Pipfile".toList, "Pipfile.lock".toList, "poetry.lock".toList,
   "environment.yml".toList, "environment.yaml".toList, "conda.yml".toList,
   "conda.yaml".toList]

/-- `ProjectAnalyzer.MAX_FILES_TOTAL`. -/
def MAX_FILES_TOTAL : Nat := 60

/-- `ProjectAnalyzer.MAX_CODE_FILES`. -/
def MAX_CODE_FILES : Nat := 30

/-- `ProjectAnalyzer.MAX_CHARS_PER_PRIMARY`. -/
def MAX_CHARS_PER_PRIMARY : Nat := 12000

/-- `ProjectAnalyzer.MAX_CHARS_PER_CODE`. -/
def MAX_CHARS_PER_CODE : Nat := 1800

/-- `ProjectAnalyzer.MAX_TOTAL_CHARS`. -/
def MAX_TOTAL_CHARS : Nat := 110000

/-- Python `path.replace("\\", "/")`. -/
def normPath (p : PyStr) : PyStr :=
  p.map (fun c => if c = '\\' then '/' else c)

/-- Python `norm.split("/")[-1]`. -/
def lastComponent (p : PyStr) : PyStr :=
  (p.reverse.takeWhile (fun c => c ≠ '/')).reverse

/-- `any(norm.startswith(pfx) for pfx in prefixes)`. -/
def startsWithAny (prefixes : List PyStr) (s : PyStr) : Bool :=
  prefixes.any (fun p => p.isPrefixOf s)

/-- The tier assigned to a (normalized, non-excluded) path by
`_select_relevant_files`: `0` for a PRIMARY dependency-declaration file,
`1` for a README, `2` for a sampled `.py` code file, `none` for a path
the selection drops. -/
def fileRole (norm : PyStr) : Option Nat :=
  let base := lastComponent norm
  if base ∈ PRIMARY_FILES then some 0
  else if pyLower base = ("readme.md".toList) ∨ pyLower base = ("readme.rst".toList) then
    some 1
  else if (".py".toList).isSuffixOf norm then some 2
  else none

/-- The classification pass of `_select_relevant_files`: normalize each
path, drop excluded directories and any `__import_summary__` entry, and
tag each survivor with its tier. -/
def classifyFiles (files : List (PyStr × PyStr)) : List ((PyStr × PyStr) × Nat) :=
  files.filterMap (fun pc =>
    let norm := normPath pc.1
    if startsWithAny EXCLUDE_DIR_PREFIXES norm then none
    else if lastComponent norm = ("__import_summary__".toList) ∨
        norm = ("__import_summary__".toList) then none
    else
      match fileRole norm with
      | some r => some ((norm, pc.2), r)
      | none => none)

/-- Python `list.sort(key=lambda x: x[0])` on (path, content) pairs:
a stable sort by the path. -/
def sortByKey (l : List (PyStr × PyStr)) : List (PyStr × PyStr) :=
  l.insertionSort (fun a b => a.1 ≤ b.1)

/-- `ProjectAnalyzer._select_relevant_files`: primary files first, then
READMEs, then at most `MAX_CODE_FILES` sampled code files, each tier
sorted by path, the concatenation capped at `MAX_FILES_TOTAL`. -/
def selectRelevantFiles (files : List (PyStr × PyStr)) : List (PyStr × PyStr) :=
  let cands := classifyFiles files
  let primary := (cands.filter (fun x => x.2 = 0)).map (fun x => x.1)
  let other := (cands.filter (fun x => x.2 = 1)).map (fun x => x.1)
  let code := (cands.filter (fun x => x.2 = 2)).map (fun x => x.1)
  (sortByKey primary ++ sortByKey other ++
    (sortByKey code).take MAX_CODE_FILES).take MAX_FILES_TOTAL

/-- Python dict assignment `d[k] = v` on an association list whose order
models the dict's insertion order. -/
def dictUpdate (d : List (PyStr × PyStr)) (k v : PyStr) : List (PyStr × PyStr) :=
  if d.any (fun e => e.1 = k) then
    d.map (fun e => if e.1 = k then (k, v) else e)
  else d ++ [(k, v)]

/-- The dict comprehension `{k: v for k, v in merged}`: first occurrence
keeps its position, a later duplicate key overwrites the value. -/
def toPyDict (l : List (PyStr × PyStr)) : List (PyStr × PyStr) :=
  l.foldl (fun d e => dictUpdate d e.1 e.2) []

/-- One `--- {filename} ---` block of `_format_files_content`, with the
role-specific per-file clipping. -/
def mkBlock (filename content : PyStr) : PyStr :=
  let base := lastComponent filename
  let isPrim := base ∈ PRIMARY_FILES ||
    ("__import_summary__".toList).isPrefixOf filename
  let cap := if isPrim then MAX_CHARS_PER_PRIMARY else MAX_CHARS_PER_CODE
  let clipped :=
    if content.length ≤ cap then content
    else content.take cap ++ ("\n... (truncated)\n".toList)
  ("--- ".toList) ++ filename ++ (" ---\n".toList) ++ clipped ++ ("\n\n".toList)

/-- The truncation marker appended by `_format_files_content`. -/
def truncMarker : PyStr := "\n--- [TRUNCATED: input budget reached] ---\n".toList

/-- The budgeted loop of `_format_files_content` over the sorted key
list.  Each element of the result is `(some filename, block)` for an
included file record, or `(none, truncMarker)` for the marker that ends
a truncated payload. -/
def formatGo (d : List (PyStr × PyStr)) : List PyStr → Nat → List (Option PyStr × PyStr)
  | [], _ => []
  | k :: ks, total =>
    let block := mkBlock k ((d.lookup k).getD [])
    if total + block.length > MAX_TOTAL_CHARS then [(none, truncMarker)]
    else (some k, block) :: formatGo d ks (total + block.length)

/-- `ProjectAnalyzer._format_files_content`: `"\n" + "".join(parts)` over
the blocks produced for the sorted keys of the selected dict. -/
def formatFilesContent (d : List (PyStr × PyStr)) : PyStr :=
  '\n' :: (formatGo d (sortStrs (d.map Prod.fst)) 0).foldr
    (fun e acc => e.2 ++ acc) []

/-- The filenames of the file records included in the formatted payload. -/
def includedFiles (d : List (PyStr × PyStr)) : List PyStr :=
  (formatGo d (sortStrs (d.map Prod.fst)) 0).filterMap Prod.fst

/-- The dict handed to `_format_files_content` by `ProjectAnalyzer.analyze`:
the bounded selection plus the injected `__import_summary__` record.  The
summary text (computed by `_build_import_summary`) is abstracted as an
argument, so the statements below hold for every summary. -/
def analyzeSelected (files : List (PyStr × PyStr)) (importSummary : PyStr) :
    List (PyStr × PyStr) :=
  dictUpdate (toPyDict (selectRelevantFiles files))
    ("__import_summary__".toList) importSummary

/-- The full evidence payload built by `ProjectAnalyzer.analyze` for the
advisory prompt (selection, summary injection, budgeted formatting). -/
def analyzePayload (files : List (PyStr × PyStr)) (importSummary : PyStr) : PyStr :=
  formatFilesContent (analyzeSelected files importSummary)

/-- The filenames of the records included in `analyzePayload`. -/
def analyzeIncluded (files : List (PyStr × PyStr)) (importSummary : PyStr) :
    List PyStr :=
  includedFiles (analyzeSelected files importSummary)

/-- The claim C2 ordering predicate, written from the spec's words: the
included records, restricted to the three prioritized tiers (declaration,
documentation, sampled source), appear in non-decreasing tier order. -/
def priorityOrdered (l : List PyStr) : Bool :=
  decide ((l.filterMap fileRole).Pairwise (· ≤ ·))

/- ----------------------------------------------------------------------
Import evidence: `_build_import_summary` / `_extract_top_level_imports` /
`_normalize_module_to_package` of `src/agents/project_analyzer.py`.
The `ast.parse` stage is the oracle: a source file is given by its parse
result, the list of `Import` / `ImportFrom` nodes `ast.walk` yields
(an `Import` with several aliases is the corresponding list of
single-alias nodes).  `sys.stdlib_module_names` is the `stdlib` argument.
---------------------------------------------------------------------- -/

/-- An `ast.Import` alias (`direct name`) or an `ast.ImportFrom` node
(`fromMod module level`; `module` is `none` for `from . import x`). -/
inductive PyImportStmt where
  | direct (name : PyStr)
  | fromMod (mod : Option PyStr) (level : Nat)
deriving DecidableEq

/-- Python `m.split(".")[0]`. -/
def rootSegment (m : PyStr) : PyStr := m.takeWhile (fun c => c ≠ '.')

/-- `ProjectAnalyzer._extract_top_level_imports` (AST branch): the root
segment of every direct import and of every `from`-import whose module is
present and whose relative level is zero. -/
def extractTopLevelImports (stmts : List PyImportStmt) : List PyStr :=
  stmts.filterMap (fun s =>
    match s with
    | PyImportStmt.direct n =>
      let r := rootSegment n
      if r = [] then none else some r
    | PyImportStmt.fromMod mod lvl =>
      match mod with
      | none => none
      | some m =>
        if m = [] then none
        else if 0 < lvl then none
        else
          let r := rootSegment m
          if r = [] then none else some r)

/-- `ProjectAnalyzer.MODULE_TO_PACKAGE`. -/
def MODULE_TO_PACKAGE : List (PyStr × PyStr) :=
  [("yaml".toList, "pyyaml".toList),
   ("PIL".toList, "pillow".toList),
   ("sklearn".toList, "scikit-learn".toList),
   ("cv2".toList, "opencv-python".toList),
   ("Crypto".toList, "pycryptodome".toList),
   ("Cryptodome".toList, "pycryptodome".toList),
   ("bs4".toList, "beautifulsoup4".toList),
   ("dateutil".toList, "python-dateutil".toList),
   ("pkg_resources".toList, "setuptools".toList)]

/-- `ProjectAnalyzer._normalize_module_to_package`, with the interpreter's
`sys.stdlib_module_names` as the `stdlib` argument. -/
def normalizeModuleToPackage (stdlib : List PyStr) (m : PyStr) : PyStr :=
  if m = [] then []
  else if ['.'].isPrefixOf m then []
  else if m ∈ stdlib then []
  else
    match MODULE_TO_PACKAGE.lookup m with
    | some p => p
    | none => m

/-- The path filter of `_build_import_summary`: normalize, drop excluded
directories, keep only `.py` files. -/
def scannedPath (p : PyStr) : Bool :=
  let norm := normPath p
  !(startsWithAny EXCLUDE_DIR_PREFIXES norm) && (".py".toList).isSuffixOf norm

/-- The sequence of non-empty normalized package names counted by the
`Counter` of `_build_import_summary`; `counter[pkg]` is the number of
occurrences of `pkg` in this list. -/
def evidenceTally (stdlib : List PyStr)
    (files : List (PyStr × List PyImportStmt)) : List PyStr :=
  files.foldr
    (fun f acc =>
      (if scannedPath f.1 then
        ((extractTopLevelImports f.2).map (normalizeModuleToPackage stdlib)).filter
          (fun s => !s.isEmpty)
      else []) ++ acc)
    []

/-- `True` for an import statement with no explicit relative level. -/
def nonRelative : PyImportStmt → Bool
  | PyImportStmt.direct _ => true
  | PyImportStmt.fromMod _ lvl => decide (lvl = 0)

/- ----------------------------------------------------------------------
`CodeScannerAgent._find_best_project_root` of `src/agents/code_scanner.py`.
The filesystem is the oracle: a directory tree with directory names,
plain file names, and subdirectories in `os.walk` listing order.  A
candidate path is its component list below `root_path` (`[]` is the
start directory), matching `len(current_path.parts) - start_depth`.
---------------------------------------------------------------------- -/

/-- A directory tree as `os.walk` sees it. -/
inductive FsTree where
  | mk (dirName : PyStr) (files : List PyStr) (subdirs : List FsTree)

/-- The name of a directory node. -/
def dirNameOf : FsTree → PyStr
  | FsTree.mk n _ _ => n

/-- The marker score of one visited directory. -/
def dirScore (filenames : List PyStr) : Nat :=
  (if ("setup.py".toList) ∈ filenames then 10 else 0) +
    (if ("pyproject.toml".toList) ∈ filenames then 10 else 0) +
    (if ("Pipfile".toList) ∈ filenames then 10 else 0) +
    (if ("environment.yml".toList) ∈ filenames then 10 else 0) +
    (if ("requirements.txt".toList) ∈ filenames then 5 else 0)

/-- `max_depth = 3` in `_find_best_project_root`. -/
def maxWalkDepth : Nat := 3

/-- The `score == 0 → skip; score > max_score → replace` step of the
walk loop, applied to the running `(best_path, max_score)` state. -/
def bestStep (st : List PyStr × Nat) (e : List PyStr × Nat) : List PyStr × Nat :=
  if e.2 = 0 then st else if st.2 < e.2 then e else st

mutual

/-- The `os.walk` traversal of `_find_best_project_root` over one
directory: directories deeper than `max_depth` are visited but not
scored and their subtrees are pruned (`dirnames[:] = []`). -/
def visitDir (t : FsTree) (depth : Nat) (path : List PyStr)
    (st : List PyStr × Nat) : List PyStr × Nat :=
  match t with
  | FsTree.mk _ files subs =>
    if maxWalkDepth < depth then st
    else visitSubs subs (depth + 1) path (bestStep st (path, dirScore files))

/-- The traversal over a sibling list, in listing order. -/
def visitSubs (cs : List FsTree) (depth : Nat) (parentPath : List PyStr)
    (st : List PyStr × Nat) : List PyStr × Nat :=
  match cs with
  | [] => st
  | c :: rest =>
    visitSubs rest depth parentPath
      (visitDir c depth (parentPath ++ [dirNameOf c]) st)

end

/-- `CodeScannerAgent._find_best_project_root`: the retained best path
(as its component list below the start directory) after the scored walk,
starting from `best_path = root_path, max_score = 0`. -/
def findBestProjectRoot (t : FsTree) : List PyStr :=
  (visitDir t 0 [] ([], 0)).1

mutual

/-- The visited-and-scored directories, in `os.walk` order, with their
paths and scores (the linearization of the walk `visitDir` performs). -/
def walkScored (t : FsTree) (depth : Nat) (path : List PyStr) :
    List (List PyStr × Nat) :=
  match t with
  | FsTree.mk _ files subs =>
    if maxWalkDepth < depth then []
    else (path, dirScore files) :: walkScoredSubs subs (depth + 1) path

/-- The linearization over a sibling list. -/
def walkScoredSubs (cs : List FsTree) (depth : Nat) (parentPath : List PyStr) :
    List (List PyStr × Nat) :=
  match cs with
  | [] => []
  | c :: rest =>
    walkScored c depth (parentPath ++ [dirNameOf c]) ++
      walkScoredSubs rest depth parentPath

end

/-- The tree with every directory deeper than `d` removed (the part of
the tree `_find_best_project_root` can observe when `d = maxWalkDepth`). -/
def pruneTree : Nat → FsTree → FsTree
  | 0, FsTree.mk n f _ => FsTree.mk n f []
  | d + 1, FsTree.mk n f subs => FsTree.mk n f (subs.map (pruneTree d))

/- ----------------------------------------------------------------------
`SystemChecker.run_all_checks` of `src/utils/system_checker.py` and the
pre-flight step of `main` in `src/main.py`.
---------------------------------------------------------------------- -/

/-- The `system_details` dict built by `run_all_checks` (its fields are
oracle values; only the tuple arity matters to the statements below). -/
structure SystemDetails where
  osType : PyStr
  chip : PyStr
  gpu : Option PyStr
deriving DecidableEq

/-- A Python value as it appears in the returned tuple. -/
inductive PyVal where
  | pyBool (b : Bool)
  | pyStrList (l : List PyStr)
  | pyDetails (d : SystemDetails)
deriving DecidableEq

/-- The single return statement of `SystemChecker.run_all_checks`:
`return all_passed, messages, system_details` — a three-element tuple,
whatever the individual check outcomes were. -/
def runAllChecksTuple (allPassed : Bool) (messages : List PyStr)
    (details : SystemDetails) : List PyVal :=
  [PyVal.pyBool allPassed, PyVal.pyStrList messages, PyVal.pyDetails details]

/-- The error raised by CPython when a tuple is unpacked into a
non-matching number of targets. -/
inductive PyError where
  | valueError
deriving DecidableEq

/-- The two ways the pre-flight step of `main` can end when the binding
itself succeeds. -/
inductive PreflightOutcome where
  | exitSystemCheckFailed
  | continued
deriving DecidableEq

/-- Python tuple unpacking into exactly two targets
(`passed, msgs = ...`): raises `ValueError` unless the tuple has
exactly two elements. -/
def unpack2 (t : List PyVal) : Except PyError (PyVal × PyVal) :=
  match t with
  | [a, b] => Except.ok (a, b)
  | _ => Except.error PyError.valueError

/-- Python truthiness of the first unpacked value. -/
def pyTruthy : PyVal → Bool
  | PyVal.pyBool b => b
  | PyVal.pyStrList l => !l.isEmpty
  | PyVal.pyDetails _ => true

/-- The Step-0 pre-flight of `main`:
`passed, msgs = checker.run_all_checks(); if not passed: sys.exit(1)`. -/
def mainPreflight (allPassed : Bool) (messages : List PyStr)
    (details : SystemDetails) : Except PyError PreflightOutcome :=
  match unpack2 (runAllChecksTuple allPassed messages details) with
  | Except.error e => Except.error e
  | Except.ok pm =>
    if pyTruthy pm.1 then Except.ok PreflightOutcome.continued
    else Except.ok PreflightOutcome.exitSystemCheckFailed

/- ----------------------------------------------------------------------
The retry loop of Step 5 in `src/main.py`.  `conda create` and the fixer
(together with the Memory it consults) are oracles: `createEnv attempt yml`
is the `(success, error)` pair of attempt number `attempt`, and
`fixOracle yml error history` is `fixer.fix(current_yml, error, memory)`
with `memory.error_history = history`.  `settings.MAX_RETRIES` (from the
`config` package, which is not part of the seven source files) is the
`maxRetries` argument.
---------------------------------------------------------------------- -/

/-- How the Step-5 loop of `main` ends: `break` after a successful
creation, `sys.exit(1)` after the final failed attempt, or — when the
retry budget is zero — the loop body never running. -/
inductive LoopOutcome where
  | created (attempt : Nat)
  | failedExit (lastError : PyStr) (attempt : Nat)
  | skipped
deriving DecidableEq

/-- The `for attempt in range(1, MAX_RETRIES + 1)` loop: `remaining`
iterations are left, the current attempt is numbered `attempt`. -/
def runAttempts (createEnv : Nat → PyStr → Bool × PyStr)
    (fixOracle : PyStr → PyStr → List (PyStr × PyStr) → PyStr) :
    Nat → Nat → PyStr → List (PyStr × PyStr) → LoopOutcome
  | 0, _, _, _ => LoopOutcome.skipped
  | remaining + 1, attempt, yml, history =>
    let r := createEnv attempt yml
    if r.1 then LoopOutcome.created attempt
    else if remaining = 0 then LoopOutcome.failedExit r.2 attempt
    else
      runAttempts createEnv fixOracle remaining (attempt + 1)
        (fixOracle yml r.2 history) (history ++ [(r.2, ("Applied fix".toList))])

/-- The Step-5 repair loop of `main`, started at attempt 1 with an empty
error history. -/
def repairLoop (createEnv : Nat → PyStr → Bool × PyStr)
    (fixOracle : PyStr → PyStr → List (PyStr × PyStr) → PyStr)
    (maxRetries : Nat) (seedYml : PyStr) : LoopOutcome :=
  runAttempts createEnv fixOracle maxRetries 1 seedYml []

/- ----------------------------------------------------------------------
Concrete inputs used by the counterexamples and witnesses below.
---------------------------------------------------------------------- -/

/-- Sixty distinct directories, each holding one primary declaration file. -/
def sixtyPrimaryDirs : List PyStr :=
  ["a0".toList, "a1".toList, "a2".toList, "a3".toList, "a4".toList,
   "a5".toList, "a6".toList, "a7".toList, "a8".toList, "a9".toList,
   "b0".toList, "b1".toList, "b2".toList, "b3".toList, "b4".toList,
   "b5".toList, "b6".toList, "b7".toList, "b8".toList, "b9".toList,
   "c0".toList, "c1".toList, "c2".toList, "c3".toList, "c4".toList,
   "c5".toList, "c6".toList, "c7".toList, "c8".toList, "c9".toList,
   "d0".toList, "d1".toList, "d2".toList, "d3".toList, "d4".toList,
   "d5".toList, "d6".toList, "d7".toList, "d8".toList, "d9".toList,
   "e0".toList, "e1".toList, "e2".toList, "e3".toList, "e4".toList,
   "e5".toList, "e6".toList, "e7".toList, "e8".toList, "e9".toList,
   "f0".toList, "f1".toList, "f2".toList, "f3".toList, "f4".toList,
   "f5".toList, "f6".toList, "f7".toList, "f8".toList, "f9".toList]

/-- An input project with exactly `MAX_FILES_TOTAL` primary declaration
files (each a `Pipfile` in its own directory). -/
def sixtyPrimaryFiles : List (PyStr × PyStr) :=
  sixtyPrimaryDirs.map (fun d => (d ++ ("/Pipfile".toList), "x".toList))

/-- A project whose README sorts before its declaration file. -/
def readmeBeforeDeclFiles : List (PyStr × PyStr) :=
  [("z/requirements.txt".toList, "r".toList), ("readme.md".toList, "d".toList)]

/-- A spec whose pip section contains a package whose name starts with
`python`. -/
def pipDateutilYml : PyStr :=
  "dependencies:\n- pip:\n  - python-dateutil==2.8.2".toList

/-- A scanned source file importing `yaml` plus one relative import. -/
def sampleScanFiles : List (PyStr × List PyImportStmt) :=
  [("pkg/m.py".toList,
    [PyImportStmt.direct ("yaml".toList),
     PyImportStmt.fromMod (some ("utils".toList)) 1])]

/-- A four-deep directory chain whose deepest directory holds a marker. -/
def deepMarkerTree : FsTree :=
  FsTree.mk ("proj".toList) []
    [FsTree.mk ("a".toList) []
      [FsTree.mk ("b".toList) []
        [FsTree.mk ("c".toList) []
          [FsTree.mk ("d".toList) [("setup.py".toList)] []]]]]

/-- The same chain with the depth-4 marker removed. -/
def deepPlainTree : FsTree :=
  FsTree.mk ("proj".toList) []
    [FsTree.mk ("a".toList) []
      [FsTree.mk ("b".toList) []
        [FsTree.mk ("c".toList) []
          [FsTree.mk ("d".toList) [] []]]]]

/- ----------------------------------------------------------------------
Theorems.
---------------------------------------------------------------------- -/

theorem sortStrs_eq_of_perm {l₁ l₂ : List PyStr} (h : l₁.Perm l₂) :
    sortStrs l₁ = sortStrs l₂ :=
  List.eq_of_perm_of_sorted
    ((List.perm_insertionSort _ l₁).trans (h.trans (List.perm_insertionSort _ l₂).symm))
    (List.sorted_insertionSort _ l₁) (List.sorted_insertionSort _ l₂)

theorem keptLine_none {c : PyStr}
    (h : pyStripChars c = [] ∨ ['#'].isPrefixOf (pyStripChars c) = true) :
    keptLine c = none := by
  rcases h with h | h <;> simp [keptLine, h]

/-- C10: the spec-comparison normalization (drop blank lines and
`#`-comment lines, strip each remaining line, sort) is deterministic, and
two texts whose kept lines agree up to permutation — in particular texts
differing only in blank/comment-only lines or in line order — normalize
to the same string. -/
theorem c10_normalize_invariance :
    (∀ x : PyStr, normalizeYml x = normalizeYml x) ∧
    (∀ x y : PyStr,
      (keptLines (pySplitNl (pyStripChars x))).Perm
        (keptLines (pySplitNl (pyStripChars y))) →
      normalizeYml x = normalizeYml y) ∧
    (∀ (ls rs : List PyStr) (c : PyStr),
      pyStripChars c = [] ∨ ['#'].isPrefixOf (pyStripChars c) = true →
      normalizeLines (ls ++ c :: rs) = normalizeLines (ls ++ rs)) ∧
    (∀ ls₁ ls₂ : List PyStr, ls₁.Perm ls₂ → normalizeLines ls₁ = normalizeLines ls₂) := by
  refine ⟨fun x => rfl, fun x y h => ?_, fun ls rs c hc => ?_, fun ls₁ ls₂ h => ?_⟩
  · unfold normalizeYml normalizeLines
    exact congrArg pyJoinNl (sortStrs_eq_of_perm h)
  · unfold normalizeLines keptLines
    rw [List.filterMap_append, List.filterMap_append, List.filterMap_cons,
      keptLine_none hc]
  · unfold normalizeLines keptLines
    exact congrArg pyJoinNl (sortStrs_eq_of_perm (h.filterMap keptLine))

theorem c10_witness :
    normalizeYml ("b: 2\n# note\na: 1".toList) = normalizeYml ("a: 1\n\nb: 2\n".toList) ∧
    normalizeLines (["x: 1".toList] ++ ("# c".toList) :: ["y: 2".toList]) =
      normalizeLines (["x: 1".toList] ++ ["y: 2".toList]) :=
  ⟨c10_normalize_invariance.2.1 _ _ (by decide),
   c10_normalize_invariance.2.2.1 _ _ _ (by decide)⟩

/-- C5: `main` binds the three-element tuple returned by
`SystemChecker.run_all_checks` to two targets, so the pre-flight step
raises `ValueError` for every check outcome, and the
`sys.exit(1)`-on-failed-check branch is unreachable. -/
theorem c5_preflight_raises (a : Bool) (m : List PyStr) (d : SystemDetails) :
    mainPreflight a m d = Except.error PyError.valueError ∧
    mainPreflight a m d ≠ Except.ok PreflightOutcome.exitSystemCheckFailed := by
  refine ⟨rfl, ?_⟩
  intro h
  simp [mainPreflight, unpack2, runAllChecksTuple] at h

/-- C6: when the advisory call raises, or when its candidate (stripped
and fence-cleaned) normalizes identically to the current spec,
`EnvironmentFixer.fix` returns exactly the deterministic rule-based
fallback on the current spec and error, and never propagates the
advisory failure. -/
theorem c6_fix_falls_back (adv : Except Unit PyStr) (cur err : PyStr)
    (h : (∃ e, adv = Except.error e) ∨
      ∃ s, adv = Except.ok s ∧
        areYamlsIdentical cur (cleanMarkdown (pyStripChars s)) = true) :
    envFixerFix adv cur err = heuristicFallback cur err := by
  rcases h with ⟨e, rfl⟩ | ⟨s, rfl, hid⟩
  · rfl
  · simp [envFixerFix, hid]

theorem c6_witness :
    envFixerFix (Except.error ()) ("name: x".toList) ("boom".toList) =
      heuristicFallback ("name: x".toList) ("boom".toList) :=
  c6_fix_falls_back _ _ _ (Or.inl ⟨(), rfl⟩)

theorem runAttempts_spec (createEnv : Nat → PyStr → Bool × PyStr)
    (fixOracle : PyStr → PyStr → List (PyStr × PyStr) → PyStr) :
    ∀ (remaining attempt : Nat) (yml : PyStr) (history : List (PyStr × PyStr)),
      1 ≤ remaining →
      (∃ k, attempt ≤ k ∧ k ≤ attempt + remaining - 1 ∧
        runAttempts createEnv fixOracle remaining attempt yml history =
          LoopOutcome.created k) ∨
      (∃ e y, createEnv (attempt + remaining - 1) y = (false, e) ∧
        runAttempts createEnv fixOracle remaining attempt yml history =
          LoopOutcome.failedExit e (attempt + remaining - 1)) := by
  intro remaining
  induction remaining with
  | zero => intro attempt yml history h; omega
  | succ m ih =>
    intro attempt yml history _
    by_cases hs : (createEnv attempt yml).1 = true
    · left
      exact ⟨attempt, le_refl _, by omega, by simp [runAttempts, hs]⟩
    · have hs' : (createEnv attempt yml).1 = false := by simpa using hs
      rcases Nat.eq_zero_or_pos m with rfl | hm
      · right
        have ha : attempt + (0 + 1) - 1 = attempt := by omega
        rw [ha]
        exact ⟨(createEnv attempt yml).2, yml, by rw [← hs'],
          by simp [runAttempts, hs']⟩
      · have step :
            runAttempts createEnv fixOracle (m + 1) attempt yml history =
              runAttempts createEnv fixOracle m (attempt + 1)
                (fixOracle yml (createEnv attempt yml).2 history)
                (history ++ [((createEnv attempt yml).2, ("Applied fix".toList))]) := by
          simp [runAttempts, hs', Nat.pos_iff_ne_zero.mp hm]
        rcases ih (attempt + 1) (fixOracle yml (createEnv attempt yml).2 history)
            (history ++ [((createEnv attempt yml).2, ("Applied fix".toList))]) hm with
          ⟨k, hk1, hk2, hk3⟩ | ⟨e, y, he, hr⟩
        · left
          exact ⟨k, by omega, by omega, by rw [step]; rw [hk3]⟩
        · right
          refine ⟨e, y, ?_, ?_⟩
          · have : attempt + 1 + m - 1 = attempt + (m + 1) - 1 := by omega
            rwa [this] at he
          · rw [step, hr]
            congr 1
            omega

/-- C7: for every seed spec and every sequence of realization outcomes,
the Step-5 repair loop of `main` performs at most `MAX_RETRIES`
realization attempts and ends in exactly one of two terminal outcomes:
success (`break` after a created environment, at some attempt
`1 ≤ k ≤ MAX_RETRIES`) or failure (`sys.exit(1)` after the final failed
attempt, surfacing that attempt's error). -/
theorem c7_retry_termination (createEnv : Nat → PyStr → Bool × PyStr)
    (fixOracle : PyStr → PyStr → List (PyStr × PyStr) → PyStr)
    (maxRetries : Nat) (seedYml : PyStr) (h : 1 ≤ maxRetries) :
    (∃ k, 1 ≤ k ∧ k ≤ maxRetries ∧
      repairLoop createEnv fixOracle maxRetries seedYml = LoopOutcome.created k) ∨
    (∃ e y, createEnv maxRetries y = (false, e) ∧
      repairLoop createEnv fixOracle maxRetries seedYml =
        LoopOutcome.failedExit e maxRetries) := by
  have := runAttempts_spec createEnv fixOracle maxRetries 1 seedYml [] h
  have harith : 1 + maxRetries - 1 = maxRetries := by omega
  rw [harith] at this
  exact this

theorem c7_witness :
    (∃ k, 1 ≤ k ∧ k ≤ 3 ∧
      repairLoop (fun _ _ => (true, [])) (fun _ _ _ => []) 3 [] =
        LoopOutcome.created k) ∨
    (∃ e y, (fun (_ : Nat) (_ : PyStr) => ((true : Bool), ([] : PyStr))) 3 y = (false, e) ∧
      repairLoop (fun _ _ => (true, [])) (fun _ _ _ => []) 3 [] =
        LoopOutcome.failedExit e 3) :=
  c7_retry_termination _ _ 3 [] (by decide)

theorem visitDir_deep (t : FsTree) (d : Nat) (p : List PyStr)
    (st : List PyStr × Nat) (h : maxWalkDepth < d) : visitDir t d p st = st := by
  cases t with
  | mk n files subs => simp [visitDir, h]

theorem visitSubs_deep (cs : List FsTree) (d : Nat) (p : List PyStr)
    (st : List PyStr × Nat) (h : maxWalkDepth < d) : visitSubs cs d p st = st := by
  induction cs generalizing st with
  | nil => rfl
  | cons c rest ih => rw [visitSubs, visitDir_deep c d _ st h, ih]

mutual

theorem visitDir_prune (t : FsTree) : ∀ (d : Nat) (p : List PyStr)
    (st : List PyStr × Nat),
    visitDir (pruneTree (maxWalkDepth - d) t) d p st = visitDir t d p st := by
  intro d p st
  cases t with
  | mk n files subs =>
    by_cases h : maxWalkDepth < d
    · rw [visitDir_deep _ d p st h, visitDir_deep _ d p st h]
    · rcases Nat.eq_zero_or_pos (maxWalkDepth - d) with hz | hp
      · have hd : d = maxWalkDepth := by omega
        rw [hz]
        simp only [pruneTree, visitDir, if_neg h]
        rw [visitSubs_deep subs _ p _ (by omega)]
        rfl
      · obtain ⟨m, hm⟩ : ∃ m, maxWalkDepth - d = m + 1 := ⟨maxWalkDepth - d - 1, by omega⟩
        rw [hm]
        simp only [pruneTree, visitDir, if_neg h]
        have hm2 : m = maxWalkDepth - (d + 1) := by omega
        rw [hm2]
        exact visitSubs_prune subs (d + 1) p _

theorem visitSubs_prune (cs : List FsTree) : ∀ (d : Nat) (p : List PyStr)
    (st : List PyStr × Nat),
    visitSubs (cs.map (pruneTree (maxWalkDepth - d))) d p st = visitSubs cs d p st := by
  intro d p st
  match cs with
  | [] => rfl
  | c :: rest =>
    show visitSubs ((pruneTree (maxWalkDepth - d) c) :: rest.map (pruneTree (maxWalkDepth - d))) d p st = _
    rw [visitSubs, visitSubs]
    have hn : dirNameOf (pruneTree (maxWalkDepth - d) c) = dirNameOf c := by
      cases c with
      | mk n f s => cases h : maxWalkDepth - d with
        | zero => rfl
        | succ m => rfl
    rw [hn, visitDir_prune c d (p ++ [dirNameOf c]) st]
    exact visitSubs_prune rest d p _

end

/-- C9: the root locator never looks below depth `maxWalkDepth = 3`:
two directory trees that agree once everything deeper than depth 3 is
removed — in particular two trees differing only in marker files inside
directories at depth ≥ 4 — yield the same chosen root. -/
theorem c9_depth_limit (t₁ t₂ : FsTree)
    (h : pruneTree maxWalkDepth t₁ = pruneTree maxWalkDepth t₂) :
    findBestProjectRoot t₁ = findBestProjectRoot t₂ := by
  unfold findBestProjectRoot
  have h1 := visitDir_prune t₁ 0 [] ([], 0)
  have h2 := visitDir_prune t₂ 0 [] ([], 0)
  rw [Nat.sub_zero] at h1 h2
  rw [← h1, ← h2, h]

theorem c9_witness : findBestProjectRoot deepMarkerTree = findBestProjectRoot deepPlainTree :=
  c9_depth_limit deepMarkerTree deepPlainTree rfl

theorem walkScored_deep (t : FsTree) (d : Nat) (p : List PyStr)
    (h : maxWalkDepth < d) : walkScored t d p = [] := by
  cases t with
  | mk n files subs => simp [walkScored, h]

mutual

theorem visitDir_eq_fold (t : FsTree) : ∀ (d : Nat) (p : List PyStr)
    (st : List PyStr × Nat),
    visitDir t d p st = (walkScored t d p).foldl bestStep st := by
  intro d p st
  cases t with
  | mk n files subs =>
    by_cases h : maxWalkDepth < d
    · rw [visitDir_deep _ d p st h, walkScored_deep _ d p h]
      rfl
    · simp only [visitDir, walkScored, if_neg h, List.foldl_cons]
      exact visitSubs_eq_fold subs (d + 1) p _

theorem visitSubs_eq_fold (cs : List FsTree) : ∀ (d : Nat) (p : List PyStr)
    (st : List PyStr × Nat),
    visitSubs cs d p st = (walkScoredSubs cs d p).foldl bestStep st := by
  intro d p st
  match cs with
  | [] => rfl
  | c :: rest =>
    simp only [visitSubs, walkScoredSubs, List.foldl_append]
    rw [visitDir_eq_fold c d (p ++ [dirNameOf c]) st]
    exact visitSubs_eq_fold rest d p _

end

theorem foldBest_spec : ∀ (l : List (List PyStr × Nat)) (st : List PyStr × Nat),
    (l.foldl bestStep st = st ∧ ∀ e ∈ l, e.2 ≤ st.2) ∨
    (∃ pre s post, l = pre ++ ((l.foldl bestStep st).1, s) :: post ∧
      (l.foldl bestStep st).2 = s ∧ st.2 < s ∧
      (∀ e ∈ pre, e.2 < s) ∧ (∀ e ∈ post, e.2 ≤ s)) := by
  intro l
  induction l with
  | nil => intro st; left; exact ⟨rfl, by simp⟩
  | cons e rest ih =>
    intro st
    rw [List.foldl_cons]
    by_cases htake : st.2 < e.2 ∧ e.2 ≠ 0
    · have hstep : bestStep st e = e := by
        simp [bestStep, htake.2, if_pos htake.1]
      rw [hstep]
      rcases ih e with ⟨heq, hall⟩ | ⟨pre, s, post, hdec, hs, hlt, hpre, hpost⟩
      · right
        refine ⟨[], e.2, rest, ?_, ?_, htake.1, by simp, hall⟩
        · rw [heq]
          simp
        · rw [heq]
      · right
        refine ⟨e :: pre, s, post, ?_, hs, lt_trans htake.1 hlt, ?_, hpost⟩
        · conv_lhs => rw [hdec]
          rw [List.cons_append]
        · intro x hx
          rcases List.mem_cons.mp hx with rfl | hx
          · exact hlt
          · exact hpre x hx
    · have hle2 : e.2 ≤ st.2 := by
        rcases Decidable.not_and_iff_or_not.mp htake with hle | hz
        · omega
        · have : e.2 = 0 := by simpa using hz
          omega
      have hstep : bestStep st e = st := by
        simp only [bestStep]
        by_cases hz2 : e.2 = 0
        · rw [if_pos hz2]
        · rw [if_neg hz2, if_neg (by omega)]
      rw [hstep]
      rcases ih st with ⟨heq, hall⟩ | ⟨pre, s, post, hdec, hs, hlt, hpre, hpost⟩
      · left
        refine ⟨heq, ?_⟩
        intro x hx
        rcases List.mem_cons.mp hx with rfl | hx
        · exact hle2
        · exact hall x hx
      · right
        refine ⟨e :: pre, s, post, ?_, hs, hlt, ?_, hpost⟩
        · conv_lhs => rw [hdec]
          rw [List.cons_append]
        · intro x hx
          rcases List.mem_cons.mp hx with rfl | hx
          · omega
          · exact hpre x hx

/-- C8: the root locator returns the start directory whenever every
visited directory scores zero; a zero-scoring directory is never chosen
over the start directory; and the retained candidate is replaced only on
a strictly greater score, so the chosen root is the earliest-visited
directory attaining the (positive) maximal score — ties keep the
earlier-visited candidate. -/
theorem c8_root_scoring (t : FsTree) :
    ((∀ e ∈ walkScored t 0 [], e.2 = 0) → findBestProjectRoot t = []) ∧
    (findBestProjectRoot t = [] ∨
      ∃ pre s post, walkScored t 0 [] = pre ++ ((findBestProjectRoot t, s) : List PyStr × Nat) :: post ∧
        0 < s ∧ (∀ e ∈ pre, e.2 < s) ∧ (∀ e ∈ post, e.2 ≤ s)) := by
  have hfold : findBestProjectRoot t = ((walkScored t 0 []).foldl bestStep ([], 0)).1 := by
    unfold findBestProjectRoot
    rw [visitDir_eq_fold t 0 [] ([], 0)]
  rcases foldBest_spec (walkScored t 0 []) ([], 0) with ⟨heq, hall⟩ | ⟨pre, s, post, hdec, hs, hlt, hpre, hpost⟩
  · constructor
    · intro _
      rw [hfold, heq]
    · left
      rw [hfold, heq]
  · constructor
    · intro hz
      exfalso
      have hmem : (((walkScored t 0 []).foldl bestStep ([], 0)).1, s) ∈
          pre ++ (((walkScored t 0 []).foldl bestStep ([], 0)).1, s) :: post := by
        simp
      rw [← hdec] at hmem
      have := hz _ hmem
      simp at this
      omega
    · right
      refine ⟨pre, s, post, ?_, by simpa using hlt, hpre, hpost⟩
      rw [hfold]
      exact hdec

theorem c8_witness : findBestProjectRoot (FsTree.mk ("proj".toList) [] []) = [] :=
  (c8_root_scoring (FsTree.mk ("proj".toList) [] [])).1 (by decide)

theorem formatGo_budget (d : List (PyStr × PyStr)) :
    ∀ (ks : List PyStr) (total : Nat), total ≤ MAX_TOTAL_CHARS →
      ((formatGo d ks total).foldr (fun e acc => e.2 ++ acc) []).length + total ≤
        MAX_TOTAL_CHARS + truncMarker.length := by
  intro ks
  induction ks with
  | nil =>
    intro total h
    simp [formatGo]
    omega
  | cons k ks ih =>
    intro total h
    rw [formatGo]
    by_cases hb : total + (mkBlock k ((d.lookup k).getD [])).length > MAX_TOTAL_CHARS
    · rw [if_pos hb]
      simp [List.foldr]
      omega
    · rw [if_neg hb]
      have := ih (total + (mkBlock k ((d.lookup k).getD [])).length) (by omega)
      simp only [List.foldr_cons, List.length_append]
      omega

theorem formatGo_included_le (d : List (PyStr × PyStr)) :
    ∀ (ks : List PyStr) (total : Nat),
      ((formatGo d ks total).filterMap Prod.fst).length ≤ ks.length := by
  intro ks
  induction ks with
  | nil => intro total; simp [formatGo]
  | cons k ks ih =>
    intro total
    rw [formatGo]
    by_cases hb : total + (mkBlock k ((d.lookup k).getD [])).length > MAX_TOTAL_CHARS
    · rw [if_pos hb]
      simp
    · rw [if_neg hb]
      simp only [List.filterMap_cons, List.length_cons]
      exact Nat.succ_le_succ (ih _)

theorem dictUpdate_length_le (dd : List (PyStr × PyStr)) (k v : PyStr) :
    (dictUpdate dd k v).length ≤ dd.length + 1 := by
  unfold dictUpdate
  by_cases h : dd.any (fun e => e.1 = k)
  · rw [if_pos h, List.length_map]
    omega
  · rw [if_neg h, List.length_append]
    simp

theorem foldlDictUpdate_length_le (l : List (PyStr × PyStr)) :
    ∀ dd : List (PyStr × PyStr),
      (l.foldl (fun d e => dictUpdate d e.1 e.2) dd).length ≤ dd.length + l.length := by
  induction l with
  | nil => intro dd; simp
  | cons e rest ih =>
    intro dd
    rw [List.foldl_cons]
    have h1 := ih (dictUpdate dd e.1 e.2)
    have h2 := dictUpdate_length_le dd e.1 e.2
    simp only [List.length_cons]
    omega

theorem toPyDict_length_le (l : List (PyStr × PyStr)) :
    (toPyDict l).length ≤ l.length := by
  have := foldlDictUpdate_length_le l []
  simpa [toPyDict] using this

theorem analyzeSelected_length_le (files : List (PyStr × PyStr)) (summary : PyStr) :
    (analyzeSelected files summary).length ≤ MAX_FILES_TOTAL + 1 := by
  unfold analyzeSelected
  have h1 := dictUpdate_length_le (toPyDict (selectRelevantFiles files))
    ("__import_summary__".toList) summary
  have h2 := toPyDict_length_le (selectRelevantFiles files)
  have h3 : (selectRelevantFiles files).length ≤ MAX_FILES_TOTAL := by
    unfold selectRelevantFiles
    exact List.length_take_le _ _
  omega

/-- C1 (amended): for every input file mapping and every injected
summary text, the evidence payload exceeds the global cap
`MAX_TOTAL_CHARS` by at most the leading newline plus the truncation
marker (44 characters), and the number of included file records is at
most `MAX_FILES_TOTAL + 1` — the `+1` being the import-summary record,
which `analyze` injects after the cap was applied. -/
theorem c1_amended_budget (files : List (PyStr × PyStr)) (summary : PyStr) :
    (analyzePayload files summary).length ≤
      MAX_TOTAL_CHARS + truncMarker.length + 1 ∧
    (analyzeIncluded files summary).length ≤ MAX_FILES_TOTAL + 1 := by
  constructor
  · unfold analyzePayload formatFilesContent
    rw [List.length_cons]
    have := formatGo_budget (analyzeSelected files summary)
      (sortStrs ((analyzeSelected files summary).map Prod.fst)) 0 (by simp)
    omega
  · unfold analyzeIncluded includedFiles
    have h1 := formatGo_included_le (analyzeSelected files summary)
      (sortStrs ((analyzeSelected files summary).map Prod.fst)) 0
    have h2 : (sortStrs ((analyzeSelected files summary).map Prod.fst)).length =
        ((analyzeSelected files summary).map Prod.fst).length :=
      (List.perm_insertionSort _ _).length_eq
    have h3 := analyzeSelected_length_le files summary
    simp only [List.length_map] at h2
    omega

set_option maxRecDepth 40000 in
/-- C1 counterexample: sixty primary declaration files plus the
injected import-summary record are sixty-one records, so the payload
built by `analyze` violates the claimed `MAX_FILES_TOTAL = 60` bound
(its length, 1891 characters, is under the size cap). -/
theorem c1_counterexample :
    ¬ ((analyzePayload sixtyPrimaryFiles ("s".toList)).length ≤ MAX_TOTAL_CHARS ∧
       (analyzeIncluded sixtyPrimaryFiles ("s".toList)).length ≤ MAX_FILES_TOTAL) :=
  fun h => absurd h.2 (by decide)

theorem formatGo_take (d : List (PyStr × PyStr)) :
    ∀ (ks : List PyStr) (total : Nat),
      (∃ n, (formatGo d ks total).filterMap Prod.fst = ks.take n) ∧
      ((formatGo d ks total).filterMap Prod.fst = ks ∨
        ∃ p, (formatGo d ks total).foldr (fun e acc => e.2 ++ acc) [] =
          p ++ truncMarker) := by
  intro ks
  induction ks with
  | nil =>
    intro total
    exact ⟨⟨0, by simp [formatGo]⟩, Or.inl (by simp [formatGo])⟩
  | cons k ks ih =>
    intro total
    rw [formatGo]
    by_cases hb : total + (mkBlock k ((d.lookup k).getD [])).length > MAX_TOTAL_CHARS
    · rw [if_pos hb]
      refine ⟨⟨0, by simp⟩, Or.inr ⟨[], by simp⟩⟩
    · rw [if_neg hb]
      rcases ih (total + (mkBlock k ((d.lookup k).getD [])).length) with ⟨⟨n, hn⟩, hrest⟩
      refine ⟨⟨n + 1, ?_⟩, ?_⟩
      · simp only [List.filterMap_cons, List.take_succ_cons]
        rw [hn]
      · rcases hrest with hall | ⟨p, hp⟩
        · left
          simp only [List.filterMap_cons]
          rw [hall]
        · right
          refine ⟨mkBlock k ((d.lookup k).getD []) ++ p, ?_⟩
          simp only [List.foldr_cons]
          rw [hp, List.append_assoc]

/-- C2 (amended): the payload records are concatenated in sorted-filename
order — the included records are always a prefix of the lexicographically
sorted key list of the selected dict, regardless of tier — and whenever
the running total would exceed the global cap the concatenation halts,
appending the explicit truncation marker; so truncation drops the
lexicographically last records, not the lowest-priority tier. -/
theorem c2_amended_order (files : List (PyStr × PyStr)) (summary : PyStr) :
    (∃ n, analyzeIncluded files summary =
      (sortStrs ((analyzeSelected files summary).map Prod.fst)).take n) ∧
    (analyzeIncluded files summary =
        sortStrs ((analyzeSelected files summary).map Prod.fst) ∨
      ∃ p, analyzePayload files summary = p ++ truncMarker) := by
  have h := formatGo_take (analyzeSelected files summary)
    (sortStrs ((analyzeSelected files summary).map Prod.fst)) 0
  rcases h with ⟨⟨n, hn⟩, hrest⟩
  refine ⟨⟨n, hn⟩, ?_⟩
  rcases hrest with hall | ⟨p, hp⟩
  · exact Or.inl hall
  · right
    refine ⟨'\n' :: p, ?_⟩
    unfold analyzePayload formatFilesContent
    rw [hp]
    rfl

set_option maxRecDepth 40000 in
/-- C2 counterexample: with one README and one declaration file in a
directory sorting after it, the formatted payload places the
documentation record (`readme.md`, tier 1) before the declaration record
(`z/requirements.txt`, tier 0), refuting priority-ordered concatenation. -/
theorem c2_counterexample :
    analyzeIncluded readmeBeforeDeclFiles ("s".toList) =
      [("__import_summary__".toList), ("readme.md".toList),
       ("z/requirements.txt".toList)] ∧
    fileRole ("readme.md".toList) = some 1 ∧
    fileRole ("z/requirements.txt".toList) = some 0 ∧
    priorityOrdered (analyzeIncluded readmeBeforeDeclFiles ("s".toList)) = false := by
  refine ⟨by decide, by decide, by decide, by decide⟩

theorem mem_of_lookup_eq_some :
    ∀ {l : List (PyStr × PyStr)} {a b : PyStr}, l.lookup a = some b → (a, b) ∈ l := by
  intro l
  induction l with
  | nil => intro a b h; simp [List.lookup] at h
  | cons e rest ih =>
    intro a b h
    rw [List.lookup] at h
    cases hk : a == e.1 with
    | false =>
      rw [hk] at h
      exact List.mem_cons_of_mem _ (ih h)
    | true =>
      rw [hk] at h
      have ha : a = e.1 := by simpa using hk
      have hb : e.2 = b := by simpa using h
      subst ha
      rw [← hb]
      simp

theorem moduleTableFacts :
    ∀ kv ∈ MODULE_TO_PACKAGE, kv.1 ≠ [] ∧ rootSegment kv.1 = kv.1 ∧
      (['.'].isPrefixOf kv.1) = false ∧
      MODULE_TO_PACKAGE.lookup kv.1 = some kv.2 ∧ kv.2 ≠ [] := by
  decide

theorem moduleTableNoValueKey :
    ∀ kv ∈ MODULE_TO_PACKAGE, ∀ kv2 ∈ MODULE_TO_PACKAGE, kv2.2 ≠ kv.1 := by
  decide

theorem normalize_ne_tableKey (stdlib : List PyStr)
    {kv : PyStr × PyStr} (hkv : kv ∈ MODULE_TO_PACKAGE) (m : PyStr) :
    normalizeModuleToPackage stdlib m ≠ kv.1 := by
  obtain ⟨hne, _, _, hlook, _⟩ := moduleTableFacts kv hkv
  unfold normalizeModuleToPackage
  by_cases h1 : m = []
  · rw [if_pos h1]
    exact fun h => hne h.symm
  rw [if_neg h1]
  by_cases h2 : ['.'].isPrefixOf m = true
  · rw [if_pos h2]
    exact fun h => hne h.symm
  rw [if_neg h2]
  by_cases h3 : m ∈ stdlib
  · rw [if_pos h3]
    exact fun h => hne h.symm
  rw [if_neg h3]
  cases hl : MODULE_TO_PACKAGE.lookup m with
  | some p =>
    intro hcon
    simp only at hcon
    exact moduleTableNoValueKey kv hkv (m, p) (mem_of_lookup_eq_some hl) hcon
  | none =>
    intro hcon
    simp only at hcon
    rw [hcon] at hl
    rw [hlook] at hl
    cases hl

theorem tableKey_not_mem_evidence (stdlib : List PyStr)
    {kv : PyStr × PyStr} (hkv : kv ∈ MODULE_TO_PACKAGE)
    (files : List (PyStr × List PyImportStmt)) :
    kv.1 ∉ evidenceTally stdlib files := by
  induction files with
  | nil => simp [evidenceTally]
  | cons f rest ih =>
    unfold evidenceTally at ih ⊢
    rw [List.foldr_cons]
    intro hmem
    rcases List.mem_append.mp hmem with hl | hr
    · by_cases hs : scannedPath f.1 = true
      · rw [if_pos hs] at hl
        rcases List.mem_filter.mp hl with ⟨hin, _⟩
        rcases List.mem_map.mp hin with ⟨m, _, hm⟩
        exact normalize_ne_tableKey stdlib hkv m hm
      · rw [if_neg hs] at hl
        cases hl
    · exact ih hr

theorem filterMap_filter_eq {α β : Type} (g : α → Option β) (p : α → Bool)
    (h : ∀ s, p s = false → g s = none) (l : List α) :
    (l.filter p).filterMap g = l.filterMap g := by
  induction l with
  | nil => rfl
  | cons s rest ih =>
    rw [List.filter_cons]
    by_cases hp : p s
    · rw [if_pos hp, List.filterMap_cons, List.filterMap_cons, ih]
    · rw [if_neg hp, List.filterMap_cons, h s (by simpa using hp), ih]

theorem extract_filter_nonRelative (stmts : List PyImportStmt) :
    extractTopLevelImports (stmts.filter nonRelative) = extractTopLevelImports stmts := by
  unfold extractTopLevelImports
  apply filterMap_filter_eq
  intro s hs
  cases s with
  | direct n => simp [nonRelative] at hs
  | fromMod mod lvl =>
    have hlvl : lvl ≠ 0 := by simpa [nonRelative] using hs
    cases mod with
    | none => rfl
    | some m =>
      by_cases hm : m = []
      · simp only [if_pos hm]
      · simp only [if_neg hm]
        rw [if_pos (by omega)]

theorem evidenceTally_append (stdlib : List PyStr)
    (l₁ l₂ : List (PyStr × List PyImportStmt)) :
    evidenceTally stdlib (l₁ ++ l₂) =
      evidenceTally stdlib l₁ ++ evidenceTally stdlib l₂ := by
  induction l₁ with
  | nil => rfl
  | cons f rest ih =>
    unfold evidenceTally at ih ⊢
    simp only [List.cons_append, List.foldr_cons]
    rw [ih, List.append_assoc]

theorem evidenceTally_filter_nonRelative (stdlib : List PyStr)
    (files : List (PyStr × List PyImportStmt)) :
    evidenceTally stdlib
        (files.map (fun f => (f.1, f.2.filter nonRelative))) =
      evidenceTally stdlib files := by
  induction files with
  | nil => rfl
  | cons f rest ih =>
    unfold evidenceTally at ih ⊢
    simp only [List.map_cons, List.foldr_cons]
    rw [ih, extract_filter_nonRelative]

/-- C3: imports with an explicit relative level contribute nothing to
the collected evidence (removing them from every scanned file leaves the
evidence unchanged, and no alias-table key ever appears as a counted
name), and an import of an alias-table module is counted under its
packaging name: appending a scanned file importing the aliased module
appends exactly one occurrence of the packaging name. -/
theorem c3_import_exclusion (stdlib : List PyStr)
    (files : List (PyStr × List PyImportStmt))
    (hstd : ∀ kv ∈ MODULE_TO_PACKAGE, kv.1 ∉ stdlib) :
    (evidenceTally stdlib
        (files.map (fun f => (f.1, f.2.filter nonRelative))) =
      evidenceTally stdlib files) ∧
    (∀ kv ∈ MODULE_TO_PACKAGE,
      (evidenceTally stdlib files).count kv.1 = 0) ∧
    (∀ p, scannedPath p = true → ∀ kv ∈ MODULE_TO_PACKAGE,
      evidenceTally stdlib (files ++ [(p, [PyImportStmt.direct kv.1])]) =
        evidenceTally stdlib files ++ [kv.2]) := by
  refine ⟨evidenceTally_filter_nonRelative stdlib files, ?_, ?_⟩
  · intro kv hkv
    exact List.count_eq_zero.mpr (tableKey_not_mem_evidence stdlib hkv files)
  · intro p hp kv hkv
    obtain ⟨hne, hroot, hdot, hlook, hvne⟩ := moduleTableFacts kv hkv
    rw [evidenceTally_append]
    congr 1
    unfold evidenceTally
    rw [List.foldr_cons]
    rw [if_pos hp]
    unfold extractTopLevelImports
    rw [List.filterMap_cons]
    simp only [List.filterMap_nil]
    rw [hroot, if_neg hne]
    show ((normalizeModuleToPackage stdlib kv.1 :: []).filter fun s => !s.isEmpty) ++ [] = [kv.2]
    have hnorm : normalizeModuleToPackage stdlib kv.1 = kv.2 := by
      unfold normalizeModuleToPackage
      rw [if_neg hne, if_neg (by rw [hdot]; exact fun h => Bool.noConfusion h),
        if_neg (hstd kv hkv), hlook]
    rw [hnorm]
    rw [List.filter_cons]
    rw [if_pos (by simpa using hvne)]
    rfl

theorem c3_witness :
    (evidenceTally [("os".toList)] sampleScanFiles).count ("yaml".toList) = 0 :=
  (c3_import_exclusion [("os".toList)] sampleScanFiles (by decide)).2.1
    (("yaml".toList), ("pyyaml".toList)) (by decide)

theorem fallbackLine_editable (st : Bool) (line : PyStr)
    (h : ("- -e".toList).isPrefixOf (pyStripChars line) = true) :
    (fallbackLine true st line).1 = line := by
  obtain ⟨t, ht⟩ := List.isPrefixOf_iff_prefix.mp h
  have hs : pyStripChars line = '-' :: ' ' :: '-' :: 'e' :: t := by
    rw [← ht]
    rfl
  have f1 : ("- pip:".toList).isPrefixOf ('-' :: ' ' :: '-' :: 'e' :: t) = false := rfl
  have f2 : List.isEmpty ('-' :: ' ' :: '-' :: 'e' :: t) = false := rfl
  have f3 : (['#'].isPrefixOf ('-' :: ' ' :: '-' :: 'e' :: t)) = false := rfl
  have f4 : ("- python".toList).isPrefixOf ('-' :: ' ' :: '-' :: 'e' :: t) = false := rfl
  have f5 : ("- -e".toList).isPrefixOf ('-' :: ' ' :: '-' :: 'e' :: t) = true :=
    List.isPrefixOf_iff_prefix.mpr ⟨t, rfl⟩
  simp only [fallbackLine, hs, f1, f2, f3, f4, f5]
  simp

theorem fallbackLine_pip_preserved (line : PyStr)
    (hsp : [' '].isPrefixOf line = true ∨ ['\t'].isPrefixOf line = true)
    (hpy : ("- python".toList).isPrefixOf (pyStripChars line) = false) :
    fallbackLine true true line = (line, true) := by
  have hsp2 : ¬(true && !(pyStripChars line).isEmpty && !([' '].isPrefixOf line) &&
      !(['\t'].isPrefixOf line)) = true := by
    rcases hsp with h | h <;> simp [h]
  by_cases h1 : ("- pip:".toList).isPrefixOf (pyStripChars line) = true
  · simp only [fallbackLine, h1]
    simp
  · by_cases h2 : (pyStripChars line).isEmpty = true
    · simp only [fallbackLine]
      rw [if_neg h1, if_neg hsp2]
      simp [h2]
    · by_cases h3 : (['#'].isPrefixOf (pyStripChars line)) = true
      · simp only [fallbackLine]
        rw [if_neg h1, if_neg hsp2]
        simp [h3]
      · simp only [fallbackLine]
        rw [if_neg h1, if_neg hsp2]
        simp only [Bool.not_eq_true] at h2 h3
        rw [hpy]
        simp [h2, h3]

theorem fallbackLine_python_relaxed (st : Bool) (line : PyStr)
    (h : ("- python".toList).isPrefixOf (pyStripChars line) = true)
    (hc : ((pyStripChars line).contains '=' || (pyStripChars line).contains '>' ||
      (pyStripChars line).contains '<') = true) :
    (fallbackLine true st line).1 =
      line.takeWhile (fun c => c ≠ '-') ++ ("- python".toList) := by
  obtain ⟨t, ht⟩ := List.isPrefixOf_iff_prefix.mp h
  have hs : pyStripChars line = '-' :: ' ' :: 'p' :: 'y' :: 't' :: 'h' :: 'o' :: 'n' :: t := by
    rw [← ht]
    rfl
  have f1 : ("- pip:".toList).isPrefixOf
      ('-' :: ' ' :: 'p' :: 'y' :: 't' :: 'h' :: 'o' :: 'n' :: t) = false := rfl
  have f2 : List.isEmpty ('-' :: ' ' :: 'p' :: 'y' :: 't' :: 'h' :: 'o' :: 'n' :: t) = false := rfl
  have f3 : (['#'].isPrefixOf ('-' :: ' ' :: 'p' :: 'y' :: 't' :: 'h' :: 'o' :: 'n' :: t)) = false := rfl
  have f4 : ("- python".toList).isPrefixOf
      ('-' :: ' ' :: 'p' :: 'y' :: 't' :: 'h' :: 'o' :: 'n' :: t) = true :=
    List.isPrefixOf_iff_prefix.mpr ⟨t, rfl⟩
  rw [hs] at hc
  simp only [fallbackLine, hs, f1, f2, f3, f4, hc]
  simp

theorem dropWhile_eq_self_of_all {s : PyStr} (h : ∀ c ∈ s, pyWsChar c = false) :
    s.dropWhile pyWsChar = s := by
  cases s with
  | nil => rfl
  | cons c r =>
    rw [List.dropWhile_cons, if_neg]
    simp [h c (List.mem_cons_self c r)]

theorem pyStripChars_eq_self {s : PyStr} (h : ∀ c ∈ s, pyWsChar c = false) :
    pyStripChars s = s := by
  unfold pyStripChars
  rw [dropWhile_eq_self_of_all h, dropWhile_eq_self_of_all, List.reverse_reverse]
  intro c hc
  exact h c (List.mem_reverse.mp hc)

theorem pyStripChars_cons_ws {c : Char} {s : PyStr} (h : pyWsChar c = true) :
    pyStripChars (c :: s) = pyStripChars s := by
  unfold pyStripChars
  rw [List.dropWhile_cons, if_pos h]

theorem eq_append_unique (a : Char) :
    ∀ (l₁ l₂ r₁ r₂ : PyStr), a ∉ l₁ → a ∉ l₂ →
      l₁ ++ a :: r₁ = l₂ ++ a :: r₂ → l₁ = l₂ ∧ r₁ = r₂ := by
  intro l₁
  induction l₁ with
  | nil =>
    intro l₂ r₁ r₂ h1 h2 heq
    cases l₂ with
    | nil => simpa using heq
    | cons b t =>
      rw [List.nil_append, List.cons_append] at heq
      obtain ⟨hab, _⟩ := List.cons_eq_cons.mp heq
      exact absurd (hab ▸ List.mem_cons_self b t) h2
  | cons c t ih =>
    intro l₂ r₁ r₂ h1 h2 heq
    cases l₂ with
    | nil =>
      rw [List.cons_append, List.nil_append] at heq
      obtain ⟨hca, _⟩ := List.cons_eq_cons.mp heq
      exact absurd (hca ▸ List.mem_cons_self c t) h1
    | cons b u =>
      rw [List.cons_append, List.cons_append] at heq
      obtain ⟨hcb, htail⟩ := List.cons_eq_cons.mp heq
      obtain ⟨hlu, hr⟩ := ih u r₁ r₂ (fun hm => h1 (List.mem_cons_of_mem c hm))
        (fun hm => h2 (hcb ▸ List.mem_cons_of_mem b hm)) htail
      exact ⟨by rw [hcb, hlu], hr⟩

theorem append_singleton_inj {u w : PyStr} {a c : Char} (h : u ++ [a] = w ++ [c]) :
    a = c := by
  have := congrArg List.reverse h
  simp at this
  exact this.1

theorem count_eq_one_decomp {u v : PyStr} (hu : '=' ∉ u) (hv : '=' ∉ v) :
    (u ++ '=' :: v).count '=' = 1 := by
  rw [List.count_append, List.count_cons_self]
  rw [List.count_eq_zero.mpr hu, List.count_eq_zero.mpr hv]

theorem not_infix_double_eq {s : PyStr} (h : s.count '=' ≤ 1) :
    ¬ (('=' :: '=' :: []) <:+: s) := by
  intro hinf
  obtain ⟨l, r, hlr⟩ := hinf
  rw [← hlr] at h
  simp [List.count_append, List.count_cons_self] at h
  omega

theorem pair_infix_last {c : Char} {u v s : PyStr} (hc : c ≠ '=')
    (hs : s = u ++ '=' :: v) (hu : '=' ∉ u) (hv : '=' ∉ v)
    (hinf : ((c :: '=' :: []) <:+: s)) : ∃ w, u = w ++ [c] := by
  obtain ⟨l, r, hlr⟩ := hinf
  have hlr2 : (l ++ [c]) ++ '=' :: r = u ++ '=' :: v := by
    rw [← hs, ← hlr]
    simp
  have hcount : (u ++ '=' :: v).count '=' = 1 := count_eq_one_decomp hu hv
  rw [← hlr2] at hcount
  rw [List.count_append, List.count_append, List.count_cons_self] at hcount
  have hc0 : ('=' : Char) ∉ [c] := by
    simp
    exact fun h => hc h.symm
  have hc0n : List.count '=' [c] = 0 := List.count_eq_zero.mpr hc0
  have hl : ('=' : Char) ∉ l := List.count_eq_zero.mp (by omega)
  have hnl : ('=' : Char) ∉ l ++ [c] := by
    intro hm
    rcases List.mem_append.mp hm with hm | hm
    · exact hl hm
    · exact hc0 hm
  obtain ⟨heq, _⟩ := eq_append_unique '=' (l ++ [c]) u r v hnl hu hlr2
  exact ⟨l, heq.symm⟩

theorem pySplitFirst_boundary (c : Char) (sepT : PyStr) :
    ∀ (name rest : PyStr), c ∉ name → (c :: sepT).isPrefixOf rest = true →
      pySplitFirst (c :: sepT) (name ++ rest) = name := by
  intro name
  induction name with
  | nil =>
    intro rest h1 h2
    cases rest with
    | nil => simp [List.isPrefixOf] at h2
    | cons r0 rr =>
      rw [List.nil_append, pySplitFirst, if_pos h2]
  | cons a n ih =>
    intro rest h1 h2
    rw [List.cons_append, pySplitFirst]
    have ha : ¬ ((c :: sepT) <+: (a :: (n ++ rest))) := by
      intro hp
      obtain ⟨t, ht⟩ := hp
      rw [List.cons_append] at ht
      exact h1 ((List.cons_eq_cons.mp ht).1 ▸ List.mem_cons_self a n)
    have hf : (c :: sepT).isPrefixOf (a :: (n ++ rest)) = false := by
      rw [← Bool.not_eq_true]
      intro hcon
      exact ha (List.isPrefixOf_iff_prefix.mp hcon)
    rw [if_neg (by rw [hf]; simp)]
    rw [ih rest (fun hm => h1 (List.mem_cons_of_mem a hm)) h2]

theorem pySubstr_false_of {pat s : PyStr} (h : ¬ (pat <:+: s)) :
    pySubstr pat s = false := by
  simp only [pySubstr, decide_eq_false_iff_not]
  exact h

theorem pySubstr_op_present (op name ver : PyStr) :
    pySubstr op (name ++ op ++ ver) = true := by
  simp only [pySubstr, decide_eq_true_eq]
  exact ⟨name, ver, rfl⟩

theorem not_pair_infix_op {o₁ c : Char} {name ver : PyStr} (hc : c ≠ '=') (hco : c ≠ o₁)
    (ho : o₁ ≠ '=') (hn : ('=' : Char) ∉ name) (hv : ('=' : Char) ∉ ver) :
    ¬ ((c :: '=' :: []) <:+: (name ++ (o₁ :: '=' :: []) ++ ver)) := by
  intro hinf
  have hs : name ++ (o₁ :: '=' :: []) ++ ver = (name ++ [o₁]) ++ '=' :: ver := by simp
  have hu : ('=' : Char) ∉ name ++ [o₁] := by
    intro hm
    rcases List.mem_append.mp hm with hm | hm
    · exact hn hm
    · simp at hm
      exact ho hm.symm
  obtain ⟨w, hw⟩ := pair_infix_last hc rfl hu hv (by rw [← hs]; exact hinf)
  exact hco (append_singleton_inj hw).symm

theorem not_pair_infix_single {c : Char} {name ver : PyStr} (hc : c ≠ '=')
    (hcn : c ∉ name) (hn : ('=' : Char) ∉ name) (hv : ('=' : Char) ∉ ver) :
    ¬ ((c :: '=' :: []) <:+: (name ++ ('=' :: []) ++ ver)) := by
  intro hinf
  have hs : name ++ ('=' :: []) ++ ver = name ++ '=' :: ver := by simp
  obtain ⟨w, hw⟩ := pair_infix_last hc rfl hn hv (by rw [← hs]; exact hinf)
  apply hcn
  rw [hw]
  simp

theorem stripFirstSep_pin (name op ver : PyStr) (hop : op ∈ pinSeps)
    (hname : ∀ c ∈ name, c ≠ '=' ∧ c ≠ '>' ∧ c ≠ '<' ∧ c ≠ '!' ∧ c ≠ '~')
    (hver : ('=' : Char) ∉ ver) :
    stripFirstSep pinSeps (name ++ op ++ ver) = pyStripChars name := by
  have hne : ('=' : Char) ∉ name := fun hm => (hname _ hm).1 rfl
  have hgt : ('>' : Char) ∉ name := fun hm => (hname _ hm).2.1 rfl
  have hlt : ('<' : Char) ∉ name := fun hm => (hname _ hm).2.2.1 rfl
  have hbang : ('!' : Char) ∉ name := fun hm => (hname _ hm).2.2.2.1 rfl
  have htld : ('~' : Char) ∉ name := fun hm => (hname _ hm).2.2.2.2 rfl
  simp only [pinSeps, List.mem_cons, List.not_mem_nil, or_false] at hop
  rcases hop with rfl | rfl | rfl | rfl | rfl | rfl
  · -- op = "=="
    have hB : pySubstr ("==".toList) (name ++ ("==".toList) ++ ver) = true :=
      pySubstr_op_present _ _ _
    have hbd : pySplitFirst ("==".toList) (name ++ ("==".toList) ++ ver) = name := by
      rw [List.append_assoc]
      exact pySplitFirst_boundary '=' ['='] name (("==".toList) ++ ver) hne
        (List.isPrefixOf_iff_prefix.mpr ⟨ver, rfl⟩)
    unfold pinSeps
    rw [stripFirstSep, if_pos hB, hbd]
  · -- op = ">="
    have hu : ('=' : Char) ∉ name ++ ['>'] := by
      intro hm
      rcases List.mem_append.mp hm with hm | hm
      · exact hne hm
      · simp at hm
    have hcnt : (name ++ (">=".toList) ++ ver).count '=' ≤ 1 := by
      have hsh : name ++ (">=".toList) ++ ver = (name ++ ['>']) ++ '=' :: ver := by simp
      rw [hsh, count_eq_one_decomp hu hver]
    have hA : pySubstr ("==".toList) (name ++ (">=".toList) ++ ver) = false :=
      pySubstr_false_of (not_infix_double_eq hcnt)
    have hB : pySubstr (">=".toList) (name ++ (">=".toList) ++ ver) = true :=
      pySubstr_op_present _ _ _
    have hbd : pySplitFirst (">=".toList) (name ++ (">=".toList) ++ ver) = name := by
      rw [List.append_assoc]
      exact pySplitFirst_boundary '>' ['='] name ((">=".toList) ++ ver) hgt
        (List.isPrefixOf_iff_prefix.mpr ⟨ver, rfl⟩)
    unfold pinSeps
    rw [stripFirstSep, if_neg (by rw [hA]; simp)]
    rw [stripFirstSep, if_pos hB, hbd]
  · -- op = "<="
    have hu : ('=' : Char) ∉ name ++ ['<'] := by
      intro hm
      rcases List.mem_append.mp hm with hm | hm
      · exact hne hm
      · simp at hm
    have hcnt : (name ++ ("<=".toList) ++ ver).count '=' ≤ 1 := by
      have hsh : name ++ ("<=".toList) ++ ver = (name ++ ['<']) ++ '=' :: ver := by simp
      rw [hsh, count_eq_one_decomp hu hver]
    have hA : pySubstr ("==".toList) (name ++ ("<=".toList) ++ ver) = false :=
      pySubstr_false_of (not_infix_double_eq hcnt)
    have hB : pySubstr (">=".toList) (name ++ ("<=".toList) ++ ver) = false :=
      pySubstr_false_of (not_pair_infix_op (by decide) (by decide) (by decide) hne hver)
    have hC : pySubstr ("<=".toList) (name ++ ("<=".toList) ++ ver) = true :=
      pySubstr_op_present _ _ _
    have hbd : pySplitFirst ("<=".toList) (name ++ ("<=".toList) ++ ver) = name := by
      rw [List.append_assoc]
      exact pySplitFirst_boundary '<' ['='] name (("<=".toList) ++ ver) hlt
        (List.isPrefixOf_iff_prefix.mpr ⟨ver, rfl⟩)
    unfold pinSeps
    rw [stripFirstSep, if_neg (by rw [hA]; simp)]
    rw [stripFirstSep, if_neg (by rw [hB]; simp)]
    rw [stripFirstSep, if_pos hC, hbd]
  · -- op = "!="
    have hu : ('=' : Char) ∉ name ++ ['!'] := by
      intro hm
      rcases List.mem_append.mp hm with hm | hm
      · exact hne hm
      · simp at hm
    have hcnt : (name ++ ("!=".toList) ++ ver).count '=' ≤ 1 := by
      have hsh : name ++ ("!=".toList) ++ ver = (name ++ ['!']) ++ '=' :: ver := by simp
      rw [hsh, count_eq_one_decomp hu hver]
    have hA : pySubstr ("==".toList) (name ++ ("!=".toList) ++ ver) = false :=
      pySubstr_false_of (not_infix_double_eq hcnt)
    have hB : pySubstr (">=".toList) (name ++ ("!=".toList) ++ ver) = false :=
      pySubstr_false_of (not_pair_infix_op (by decide) (by decide) (by decide) hne hver)
    have hC : pySubstr ("<=".toList) (name ++ ("!=".toList) ++ ver) = false :=
      pySubstr_false_of (not_pair_infix_op (by decide) (by decide) (by decide) hne hver)
    have hD : pySubstr ("!=".toList) (name ++ ("!=".toList) ++ ver) = true :=
      pySubstr_op_present _ _ _
    have hbd : pySplitFirst ("!=".toList) (name ++ ("!=".toList) ++ ver) = name := by
      rw [List.append_assoc]
      exact pySplitFirst_boundary '!' ['='] name (("!=".toList) ++ ver) hbang
        (List.isPrefixOf_iff_prefix.mpr ⟨ver, rfl⟩)
    unfold pinSeps
    rw [stripFirstSep, if_neg (by rw [hA]; simp)]
    rw [stripFirstSep, if_neg (by rw [hB]; simp)]
    rw [stripFirstSep, if_neg (by rw [hC]; simp)]
    rw [stripFirstSep, if_pos hD, hbd]
  · -- op = "~="
    have hu : ('=' : Char) ∉ name ++ ['~'] := by
      intro hm
      rcases List.mem_append.mp hm with hm | hm
      · exact hne hm
      · simp at hm
    have hcnt : (name ++ ("~=".toList) ++ ver).count '=' ≤ 1 := by
      have hsh : name ++ ("~=".toList) ++ ver = (name ++ ['~']) ++ '=' :: ver := by simp
      rw [hsh, count_eq_one_decomp hu hver]
    have hA : pySubstr ("==".toList) (name ++ ("~=".toList) ++ ver) = false :=
      pySubstr_false_of (not_infix_double_eq hcnt)
    have hB : pySubstr (">=".toList) (name ++ ("~=".toList) ++ ver) = false :=
      pySubstr_false_of (not_pair_infix_op (by decide) (by decide) (by decide) hne hver)
    have hC : pySubstr ("<=".toList) (name ++ ("~=".toList) ++ ver) = false :=
      pySubstr_false_of (not_pair_infix_op (by decide) (by decide) (by decide) hne hver)
    have hD : pySubstr ("!=".toList) (name ++ ("~=".toList) ++ ver) = false :=
      pySubstr_false_of (not_pair_infix_op (by decide) (by decide) (by decide) hne hver)
    have hE : pySubstr ("~=".toList) (name ++ ("~=".toList) ++ ver) = true :=
      pySubstr_op_present _ _ _
    have hbd : pySplitFirst ("~=".toList) (name ++ ("~=".toList) ++ ver) = name := by
      rw [List.append_assoc]
      exact pySplitFirst_boundary '~' ['='] name (("~=".toList) ++ ver) htld
        (List.isPrefixOf_iff_prefix.mpr ⟨ver, rfl⟩)
    unfold pinSeps
    rw [stripFirstSep, if_neg (by rw [hA]; simp)]
    rw [stripFirstSep, if_neg (by rw [hB]; simp)]
    rw [stripFirstSep, if_neg (by rw [hC]; simp)]
    rw [stripFirstSep, if_neg (by rw [hD]; simp)]
    rw [stripFirstSep, if_pos hE, hbd]
  · -- op = "="
    have hcnt : (name ++ ("=".toList) ++ ver).count '=' ≤ 1 := by
      have hsh : name ++ ("=".toList) ++ ver = name ++ '=' :: ver := by simp
      rw [hsh, count_eq_one_decomp hne hver]
    have hA : pySubstr ("==".toList) (name ++ ("=".toList) ++ ver) = false :=
      pySubstr_false_of (not_infix_double_eq hcnt)
    have hB : pySubstr (">=".toList) (name ++ ("=".toList) ++ ver) = false :=
      pySubstr_false_of (not_pair_infix_single (by decide) hgt hne hver)
    have hC : pySubstr ("<=".toList) (name ++ ("=".toList) ++ ver) = false :=
      pySubstr_false_of (not_pair_infix_single (by decide) hlt hne hver)
    have hD : pySubstr ("!=".toList) (name ++ ("=".toList) ++ ver) = false :=
      pySubstr_false_of (not_pair_infix_single (by decide) hbang hne hver)
    have hE : pySubstr ("~=".toList) (name ++ ("=".toList) ++ ver) = false :=
      pySubstr_false_of (not_pair_infix_single (by decide) htld hne hver)
    have hF : pySubstr ("=".toList) (name ++ ("=".toList) ++ ver) = true :=
      pySubstr_op_present _ _ _
    have hbd : pySplitFirst ("=".toList) (name ++ ("=".toList) ++ ver) = name := by
      rw [List.append_assoc]
      exact pySplitFirst_boundary '=' [] name (("=".toList) ++ ver) hne
        (List.isPrefixOf_iff_prefix.mpr ⟨ver, rfl⟩)
    unfold pinSeps
    rw [stripFirstSep, if_neg (by rw [hA]; simp)]
    rw [stripFirstSep, if_neg (by rw [hB]; simp)]
    rw [stripFirstSep, if_neg (by rw [hC]; simp)]
    rw [stripFirstSep, if_neg (by rw [hD]; simp)]
    rw [stripFirstSep, if_neg (by rw [hE]; simp)]
    rw [stripFirstSep, if_pos hF, hbd]

theorem pinSeps_chars : ∀ o ∈ pinSeps, ∀ c ∈ o,
    c ≠ ':' ∧ pyWsChar c = false := by
  decide

theorem fallbackLine_pin_stripped (st : Bool) (line name op ver : PyStr)
    (hst : st = false ∨
      ([' '].isPrefixOf line = false ∧ ['\t'].isPrefixOf line = false))
    (hshape : pyStripChars line = '-' :: ' ' :: (name ++ op ++ ver))
    (hop : op ∈ pinSeps)
    (hname : ∀ c ∈ name, (c ≠ '=' ∧ c ≠ '>' ∧ c ≠ '<' ∧ c ≠ '!' ∧ c ≠ '~') ∧
      c ≠ ':' ∧ pyWsChar c = false)
    (hns : name ≠ [])
    (hver : ∀ c ∈ ver, c ≠ '=' ∧ c ≠ ':' ∧ pyWsChar c = false)
    (hpy : ("- python".toList).isPrefixOf (pyStripChars line) = false)
    (hpip : ("- pip:".toList).isPrefixOf (pyStripChars line) = false)
    (hedit : ("- -e".toList).isPrefixOf (pyStripChars line) = false) :
    (fallbackLine true st line).1 =
      line.takeWhile (fun c => c ≠ '-') ++ ("- ".toList) ++ name := by
  have hmid : ∀ c ∈ name ++ op ++ ver, pyWsChar c = false := by
    intro c hc
    rcases List.mem_append.mp hc with hc | hc
    · rcases List.mem_append.mp hc with hc | hc
      · exact (hname c hc).2.2
      · exact (pinSeps_chars op hop c hc).2
    · exact (hver c hc).2.2
  have hf2 : (pyStripChars line).isEmpty = false := by
    rw [hshape]
    rfl
  have hf3 : ['#'].isPrefixOf (pyStripChars line) = false := by
    rw [hshape]
    rfl
  have hf6 : ['-'].isPrefixOf (pyStripChars line) = true := by
    rw [hshape]
    exact List.isPrefixOf_iff_prefix.mpr ⟨_, rfl⟩
  have hf7 : (pyStripChars line).contains ':' = false := by
    rw [hshape]
    have hnm : (':' : Char) ∉ '-' :: ' ' :: (name ++ op ++ ver) := by
      intro hm
      rcases List.mem_cons.mp hm with hm | hm
      · cases hm
      rcases List.mem_cons.mp hm with hm | hm
      · cases hm
      rcases List.mem_append.mp hm with hm | hm
      · rcases List.mem_append.mp hm with hm | hm
        · exact (hname _ hm).2.1 rfl
        · exact (pinSeps_chars op hop _ hm).1 rfl
      · exact (hver _ hm).2.1 rfl
    simpa using hnm
  have hpk : pyStripChars ((pyStripChars line).drop 1) = name ++ op ++ ver := by
    rw [hshape]
    show pyStripChars (' ' :: (name ++ op ++ ver)) = name ++ op ++ ver
    rw [pyStripChars_cons_ws (show pyWsChar ' ' = true from rfl), pyStripChars_eq_self hmid]
  have hnamews : ∀ c ∈ name, pyWsChar c = false := fun c hc => (hname c hc).2.2
  have hstrip : stripFirstSep pinSeps (name ++ op ++ ver) = name := by
    rw [stripFirstSep_pin name op ver hop (fun c hc => (hname c hc).1)
      (fun hm => (hver _ hm).1 rfl)]
    exact pyStripChars_eq_self hnamews
  have hspmem : (' ' : Char) ∉ name := fun hm => by
    have := (hname _ hm).2.2
    simp [pyWsChar] at this
  have hnse : name.isEmpty = false := by
    cases name with
    | nil => exact absurd rfl hns
    | cons a t => rfl
  have hpipstate :
      (if st && !(pyStripChars line).isEmpty && !([' '].isPrefixOf line) &&
          !(['\t'].isPrefixOf line) then false else st) = false := by
    rcases hst with rfl | ⟨h1, h2⟩
    · simp
    · rw [hf2, h1, h2]
      cases st <;> rfl
  simp only [fallbackLine]
  rw [if_neg (by rw [hpip]; simp)]
  rw [hpipstate]
  rw [if_neg (by rw [hf2, hf3]; simp)]
  rw [if_neg (by rw [hpy]; simp)]
  rw [if_pos (by rw [hf6, hf7, hedit]; rfl)]
  rw [hpk, hstrip]
  simp [hspmem, hns]

/-- C4 counterexample: with a dependency-conflict error, the fallback
rewrites the pip-section entry `- python-dateutil==2.8.2` to `- python`
(the `- python` branch tests only a string prefix and ignores the pip
section), so pip-section entries are not left unchanged. -/
theorem c4_counterexample :
    isSolverError ("UnsatisfiableError".toList) = true ∧
    heuristicFallback pipDateutilYml ("UnsatisfiableError".toList) =
      ("dependencies:\n- pip:\n  - python".toList) ∧
    ("dependencies:\n- pip:\n  - python".toList) ≠ pipDateutilYml := by
  refine ⟨by decide, by decide, by decide⟩

/-- C4 (amended): on a dependency-conflict error the fallback processes
each line as follows — editable-install entries are always unchanged;
pip-section entries are unchanged *unless* their stripped form starts
with `- python`; any entry (in either section) whose stripped form starts
with `- python` and contains `=`, `>` or `<` is replaced by its
indentation plus `- python`; and a primary-section entry `- name<op>ver`
(name free of operator, colon and whitespace characters, version free of
`=` and `:`) has its version pin stripped, leaving `- name`.  In
particular `- numpy==1.21.0` becomes `- numpy` and a pinned
`- python=3.9` becomes `- python`. -/
theorem c4_amended_fallback :
    (∀ yml err : PyStr, isSolverError err = true →
      heuristicFallback yml err =
        pyJoinNl (fallbackLines true false (pySplitNl yml))) ∧
    (∀ (st : Bool) (line : PyStr),
      ("- -e".toList).isPrefixOf (pyStripChars line) = true →
      (fallbackLine true st line).1 = line) ∧
    (∀ line : PyStr,
      ([' '].isPrefixOf line = true ∨ ['\t'].isPrefixOf line = true) →
      ("- python".toList).isPrefixOf (pyStripChars line) = false →
      fallbackLine true true line = (line, true)) ∧
    (∀ (st : Bool) (line : PyStr),
      ("- python".toList).isPrefixOf (pyStripChars line) = true →
      ((pyStripChars line).contains '=' || (pyStripChars line).contains '>' ||
        (pyStripChars line).contains '<') = true →
      (fallbackLine true st line).1 =
        line.takeWhile (fun c => c ≠ '-') ++ ("- python".toList)) ∧
    (∀ (st : Bool) (line name op ver : PyStr),
      (st = false ∨
        ([' '].isPrefixOf line = false ∧ ['\t'].isPrefixOf line = false)) →
      pyStripChars line = '-' :: ' ' :: (name ++ op ++ ver) →
      op ∈ pinSeps →
      (∀ c ∈ name, (c ≠ '=' ∧ c ≠ '>' ∧ c ≠ '<' ∧ c ≠ '!' ∧ c ≠ '~') ∧
        c ≠ ':' ∧ pyWsChar c = false) →
      name ≠ [] →
      (∀ c ∈ ver, c ≠ '=' ∧ c ≠ ':' ∧ pyWsChar c = false) →
      ("- python".toList).isPrefixOf (pyStripChars line) = false →
      ("- pip:".toList).isPrefixOf (pyStripChars line) = false →
      ("- -e".toList).isPrefixOf (pyStripChars line) = false →
      (fallbackLine true st line).1 =
        line.takeWhile (fun c => c ≠ '-') ++ ("- ".toList) ++ name) ∧
    heuristicFallback ("dependencies:\n  - numpy==1.21.0\n  - python=3.9".toList)
        ("UnsatisfiableError".toList) =
      ("dependencies:\n  - numpy\n  - python".toList) := by
  refine ⟨?_, fallbackLine_editable, fallbackLine_pip_preserved,
    fallbackLine_python_relaxed, fallbackLine_pin_stripped, by decide⟩
  intro yml err h
  unfold heuristicFallback
  rw [h]

theorem c4_witness :
    (fallbackLine true false ("  - numpy==1.21.0".toList)).1 = ("  - numpy".toList) := by
  have h := c4_amended_fallback.2.2.2.2.1 false ("  - numpy==1.21.0".toList)
    ("numpy".toList) ("==".toList) ("1.21.0".toList) (Or.inl rfl) (by decide)
    (by decide) (by decide) (by decide) (by decide) (by decide) (by decide)
    (by decide)
  rw [h]
  decide
